import Mathlib

/-!
Verification of the probe static-instrumentation crate.

The crate's `src/lib.rs` defines two macros, `probe!` and `probe_lazy!`,
which forward a provider identifier, a probe name identifier and a list of
scalar argument expressions to a platform-selected implementation
(`platform_probe!` / `platform_probe_lazy!`).  The platform module itself is
not among the sources, so its behaviour (eager/lazy probe site encoding, the
semaphore gate, the note emitter and the argument format) is modelled from
the specification; the front-end macro grammar and forwarding are embedded
from `src/lib.rs` directly.

Program state is abstract (`σ`); a scalar argument expression is a state
transformer returning the machine-word value it materialises.  The
instrumented instruction is observable only through a trace of `Instr`
events, which lets us state evaluation-order, gating and frame properties.
-/

namespace Probe

/-- The instrumented no-op instruction executing at a probe site with the
provider, probe name, and the materialised argument word values. -/
structure Instr where
  provider : String
  name : String
  vals : List Int
  deriving DecidableEq, Repr

/-- A scalar argument expression: reads and possibly mutates program state
and yields a machine-word (`isize`) value. -/
def ArgExpr (σ : Type) : Type := σ → Int × σ

variable {σ : Type}

/-- Evaluate a list of argument expressions left to right, threading the
state, returning the values in order together with the final state. -/
def evalArgs : List (ArgExpr σ) → σ → List Int × σ
  | [], s => ([], s)
  | a :: rest, s =>
    let va := a s
    let vr := evalArgs rest va.2
    (va.1 :: vr.1, vr.2)

/-- Modelled from the spec: Platform Dispatch (the platform module is not in
the sources) selects at compile time between the native note-capable
strategy and the inert fallback. -/
inductive Platform
  | native
  | fallback
  deriving DecidableEq, Repr

/-- Modelled from the spec: the Semaphore Gate, a 16-bit per-site counter,
zero-initialized, mutated only by an external attaching tool. -/
structure Semaphore where
  count : Nat
  deriving DecidableEq, Repr

/-- Modelled from the spec: `is_active` reads the gate counter, true iff the
16-bit value is nonzero; on platforms without semaphore-capable note support
it is the compile-time constant `false`. -/
def is_active (p : Platform) (g : Semaphore) : Bool :=
  match p with
  | .native => decide (g.count % 65536 ≠ 0)
  | .fallback => false

/-- Modelled from the spec: the eager probe form (`platform_probe!`).  It
always evaluates every argument left to right with full side effects; on the
native platform the instrumented instruction then executes, exposing the
evaluated values; the inert fallback does nothing further.  Unit-valued. -/
def platform_probe (p : Platform) (provider name : String)
    (args : List (ArgExpr σ)) (s : σ) : Unit × σ × List Instr :=
  let r := evalArgs args s
  match p with
  | .native => ((), r.2, [⟨provider, name, r.1⟩])
  | .fallback => ((), r.2, [])

/-- Modelled from the spec: the lazy probe form (`platform_probe_lazy!`).
It first consults the Semaphore Gate; if inactive it evaluates nothing and
returns `false`; if active it evaluates the arguments and takes the eager
encoding path, returning `true`. -/
def platform_probe_lazy (p : Platform) (g : Semaphore) (provider name : String)
    (args : List (ArgExpr σ)) (s : σ) : Bool × σ × List Instr :=
  if is_active p g then
    let r := evalArgs args s
    (true, r.2, [⟨provider, name, r.1⟩])
  else
    (false, s, [])

/-- Wrap an argument expression so that each evaluation of it appends its
argument index to an evaluation log carried alongside the state. -/
def traceArg (i : Nat) (a : ArgExpr σ) : ArgExpr (σ × List Nat) :=
  fun s =>
    let r := a s.1
    (r.1, (r.2, s.2 ++ [i]))

/-- Wrap a list of argument expressions with indices starting at `k`. -/
def traceArgsFrom (k : Nat) : List (ArgExpr σ) → List (ArgExpr (σ × List Nat))
  | [] => []
  | a :: rest => traceArg k a :: traceArgsFrom (k + 1) rest

/-- Wrap a list of argument expressions with indices `0, 1, ...`. -/
def traceArgs (args : List (ArgExpr σ)) : List (ArgExpr (σ × List Nat)) :=
  traceArgsFrom 0 args

/-- Evaluating index-traced arguments appends exactly the indices
`k, k+1, ...` to the log, performs the same state effects and yields the
same values as the untraced arguments. -/
theorem evalArgs_traceArgsFrom (args : List (ArgExpr σ)) (k : Nat) (s : σ)
    (log : List Nat) :
    evalArgs (traceArgsFrom k args) (s, log) =
      ((evalArgs args s).1,
        ((evalArgs args s).2, log ++ List.range' k args.length)) := by
  induction args generalizing k s log with
  | nil => simp [traceArgsFrom, evalArgs, List.range']
  | cons a rest ih =>
    simp only [traceArgsFrom, evalArgs, traceArg, ih, List.length_cons,
      List.range'_succ, List.append_assoc, List.singleton_append]

/-- C1: on every platform, `probe!` evaluates each argument exactly once, in
left-to-right source order (the evaluation log is exactly `0, ..., n-1`),
with all state effects performed before the instrumented instruction (if
any) executes: the final state component is the post-evaluation state, and
the instruction record carries exactly the fully evaluated values. -/
theorem probe_args_evaluated_once_in_order (p : Platform)
    (provider name : String) (args : List (ArgExpr σ)) (s : σ) :
    platform_probe p provider name (traceArgs args) (s, []) =
      ((), ((evalArgs args s).2, List.range args.length),
        match p with
        | .native => [⟨provider, name, (evalArgs args s).1⟩]
        | .fallback => []) := by
  cases p <;>
    simp [platform_probe, traceArgs, evalArgs_traceArgsFrom,
      List.range_eq_range']

/-- C2: on any platform where the gate reports inactive, `probe_lazy!`
returns `false`, leaves the state untouched (zero argument side effects) and
executes no instrumented instruction. -/
theorem probe_lazy_inactive_no_side_effects (p : Platform) (g : Semaphore)
    (provider name : String) (args : List (ArgExpr σ)) (s : σ)
    (h : is_active p g = false) :
    platform_probe_lazy p g provider name args s = (false, s, []) := by
  simp [platform_probe_lazy, h]

/-- The argument expression of the lazy-probe end-to-end scenario:
the block `\x7b z += 1; z \x7d`. -/
def incZ : ArgExpr Int := fun z => (z + 1, z + 1)

/-- C2 witness: `probe_lazy!(foo, inc_z, \x7b z += 1; z \x7d)` with no
tracer attached (gate counter zero) returns `false` and leaves `z == 0`. -/
theorem probe_lazy_inactive_no_side_effects_witness :
    is_active .native ⟨0⟩ = false ∧
      platform_probe_lazy .native ⟨0⟩ "foo" "inc_z" [incZ] 0 = (false, 0, []) :=
  ⟨by decide,
    probe_lazy_inactive_no_side_effects .native ⟨0⟩ "foo" "inc_z" [incZ] 0
      (by decide)⟩

/-- C3: if the gate is active at the check, `probe_lazy!` evaluates the
arguments, takes the eager encoding path (same post-state and instruction as
the eager form under an active gate) and returns `true`; in all cases the
returned boolean is `true` exactly when the instrumented instruction
executed under an active gate; and the lazy form is boolean-valued while the
eager form is unit-valued. -/
theorem probe_lazy_active_eager_path (p : Platform) (g : Semaphore)
    (provider name : String) (args : List (ArgExpr σ)) (s : σ) :
    (is_active p g = true →
      platform_probe_lazy p g provider name args s =
        (true, (evalArgs args s).2,
          [⟨provider, name, (evalArgs args s).1⟩])) ∧
    ((platform_probe_lazy p g provider name args s).1 = true ↔
      (is_active p g = true ∧
        (platform_probe_lazy p g provider name args s).2.2 ≠ [])) ∧
    (platform_probe p provider name args s).1 = () := by
  refine ⟨fun h => by simp [platform_probe_lazy, h], ?_, rfl⟩
  by_cases h : is_active p g
  · simp [platform_probe_lazy, h]
  · simp [platform_probe_lazy, h]

/-- C3 witness: with the gate counter at 1 the lazy probe evaluates its
argument, fires the instruction with the evaluated value, and returns
`true`. -/
theorem probe_lazy_active_eager_path_witness :
    platform_probe_lazy .native ⟨1⟩ "foo" "bar" [incZ] 0 =
      (true, 1, [⟨"foo", "bar", [1]⟩]) := by
  have h :=
    (probe_lazy_active_eager_path (σ := Int) .native ⟨1⟩ "foo" "bar"
      [incZ] 0).1 (by decide)
  simpa [evalArgs, incZ] using h

/-- C4: on the inert fallback platform, `is_active` is constantly `false`
for every gate value, the eager form evaluates all arguments (final state is
the post-evaluation state) and does nothing else (no instruction), and the
lazy form evaluates nothing and always returns `false`. -/
theorem fallback_platform_behavior (g : Semaphore) (provider name : String)
    (args : List (ArgExpr σ)) (s : σ) :
    is_active .fallback g = false ∧
      platform_probe .fallback provider name args s =
        ((), (evalArgs args s).2, []) ∧
      platform_probe_lazy .fallback g provider name args s =
        (false, s, []) :=
  ⟨rfl, rfl, rfl⟩

/-- The two argument expressions of `probe!(foo, loop, i, total)`: the loop
counter and the running total, both pure reads. -/
def loopArgs (i : Nat) : List (ArgExpr Int) :=
  [fun t => ((i : Int), t), fun t => (t, t)]

/-- One iteration of the instrumented loop: `total += i` followed by
`probe!(foo, loop, i, total)`, accumulating the instruction trace. -/
def loopStep (p : Platform) (st : Int × List Instr) (i : Nat) :
    Int × List Instr :=
  let total := st.1 + (i : Int)
  let r := platform_probe p "foo" "loop" (loopArgs i) total
  (r.2.1, st.2 ++ r.2.2)

/-- The instrumented loop program: `for i in 0..100 \x7b total += i;
probe!(foo, loop, i, total) \x7d` starting from `total = 0`. -/
def loopProgram (p : Platform) : Int × List Instr :=
  (List.range 100).foldl (loopStep p) (0, [])

/-- The same loop without instrumentation. -/
def loopPlain : Int :=
  (List.range 100).foldl (fun t i => t + (i : Int)) 0

set_option maxRecDepth 10000 in
/-- C5: after the instrumented loop, `total == 4950` on every platform
(tracer attached or not — `probe!` never consults the gate), and the total
equals that of the uninstrumented loop: instrumentation changes no program
state beyond the argument expressions' own (here pure) effects. -/
theorem loop_total_unchanged (p : Platform) :
    (loopProgram p).1 = 4950 ∧ (loopProgram p).1 = loopPlain := by
  cases p <;> exact ⟨by decide, by decide⟩

/-- Modelled from the spec: an Argument Descriptor — 0-based index, byte
width (platform pointer width), signedness (all arguments are cast to a
signed machine word) and the storage location at the point of emission. -/
structure ArgDescriptor where
  index : Nat
  width : Nat
  signed : Bool
  loc : String
  deriving DecidableEq, Repr

/-- Digits of a natural number, most significant first, with fuel. -/
def natCharsAux : Nat → Nat → List Char
  | 0, _ => []
  | fuel + 1, n =>
    if n < 10 then [Char.ofNat (48 + n)]
    else natCharsAux fuel (n / 10) ++ [Char.ofNat (48 + n % 10)]

/-- Decimal digit characters of a natural number. -/
def natChars (n : Nat) : List Char := natCharsAux (n + 1) n

/-- Modelled from the spec: the per-argument encoding inside the note's
argument-format string — signedness marker, decimal width, `@`, storage
location. -/
def argFormat (d : ArgDescriptor) : List Char :=
  (if d.signed then ['-'] else []) ++ natChars d.width ++ ['@'] ++ d.loc.data

/-- Join character chunks with single spaces. -/
def joinSpace : List (List Char) → List Char
  | [] => []
  | [x] => x
  | x :: y :: rest => x ++ [' '] ++ joinSpace (y :: rest)

/-- Modelled from the spec: the argument-format string of a Note Record,
encoding every Argument Descriptor in order. -/
def argFormatString (ds : List ArgDescriptor) : String :=
  String.mk (joinSpace (ds.map argFormat))

/-- Modelled from the spec: a Probe Site — provider, name, ordered argument
descriptors, the instruction address and the semaphore address. -/
structure ProbeSite where
  provider : String
  name : String
  args : List ArgDescriptor
  addr : Nat
  semAddr : Nat
  deriving DecidableEq, Repr

/-- Modelled from the spec: a Note Record — sizes, note type, provider and
probe names, the concrete instruction address, the semaphore address, and
the argument-format string. -/
structure NoteRecord where
  namesz : Nat
  descsz : Nat
  noteType : Nat
  provider : String
  name : String
  location : Nat
  semAddr : Nat
  argStr : String
  deriving DecidableEq, Repr

/-- Bytes of a string: code points followed by a NUL terminator. -/
def strBytes (s : String) : List Nat :=
  s.data.map Char.toNat ++ [0]

/-- Little-endian bytes of a natural number in `k` bytes. -/
def natBytes : Nat → Nat → List Nat
  | 0, _ => []
  | k + 1, v => v % 256 :: natBytes k (v / 256)

/-- Modelled from the spec: the descriptor payload of a Note Record —
instruction address, semaphore address, then the NUL-terminated provider,
name and argument-format strings. -/
def notePayload (site : ProbeSite) : List Nat :=
  natBytes 8 site.addr ++ natBytes 8 site.semAddr ++
    strBytes site.provider ++ strBytes site.name ++
    strBytes (argFormatString site.args)

/-- Modelled from the spec: the Note Emitter builds one Note Record per
Probe Site, carrying the concrete instruction address. -/
def mkNote (site : ProbeSite) : NoteRecord :=
  { namesz := 8
    descsz := (notePayload site).length
    noteType := 3
    provider := site.provider
    name := site.name
    location := site.addr
    semAddr := site.semAddr
    argStr := argFormatString site.args }

/-- Modelled from the spec: the Note Emitter serializes one record per
Probe Site, in order. -/
def emitNotes (sites : List ProbeSite) : List NoteRecord :=
  sites.map mkNote

/-- C6: the Note Emitter yields exactly one record per Probe Site, and two
sites with identical provider and name but different instruction addresses
produce two separate records with distinct location addresses. -/
theorem notes_one_per_site_distinct_locations (sites : List ProbeSite) :
    (emitNotes sites).length = sites.length ∧
      ∀ (i j : Nat) (s₁ s₂ : ProbeSite),
        sites[i]? = some s₁ → sites[j]? = some s₂ →
        s₁.provider = s₂.provider → s₁.name = s₂.name →
        s₁.addr ≠ s₂.addr →
        ∃ r₁ r₂, (emitNotes sites)[i]? = some r₁ ∧
          (emitNotes sites)[j]? = some r₂ ∧ r₁.location ≠ r₂.location := by
  refine ⟨List.length_map _ _, ?_⟩
  intro i j s₁ s₂ hi hj _ _ haddr
  refine ⟨mkNote s₁, mkNote s₂, ?_, ?_, haddr⟩
  · simp [emitNotes, List.getElem?_map, hi]
  · simp [emitNotes, List.getElem?_map, hj]

/-- C6 witness: two sites sharing provider `foo` and name `loop` at
addresses 4096 and 8192 yield two records at positions 0 and 1 with
distinct locations. -/
theorem notes_one_per_site_distinct_locations_witness :
    ∃ r₁ r₂,
      (emitNotes [⟨"foo", "loop", [], 4096, 6000⟩,
        ⟨"foo", "loop", [], 8192, 6002⟩])[0]? = some r₁ ∧
      (emitNotes [⟨"foo", "loop", [], 4096, 6000⟩,
        ⟨"foo", "loop", [], 8192, 6002⟩])[1]? = some r₂ ∧
      r₁.location ≠ r₂.location :=
  (notes_one_per_site_distinct_locations
    [⟨"foo", "loop", [], 4096, 6000⟩, ⟨"foo", "loop", [], 8192, 6002⟩]).2
    0 1 _ _ rfl rfl rfl rfl (by decide)

/-- Modelled from the spec: full serialized bytes of one Note Record —
namesz, descsz, type, the owner name, then the payload. -/
def serializeNote (site : ProbeSite) : List Nat :=
  natBytes 4 8 ++ natBytes 4 (notePayload site).length ++ natBytes 4 3 ++
    strBytes "stapsdt" ++ notePayload site

/-- Modelled from the spec: the metadata section contents for a compiled
unit — the concatenation of every Probe Site's serialized Note Record. -/
def buildImage (sites : List ProbeSite) : List Nat :=
  (sites.map serializeNote).flatten

/-- C7: metadata emission is deterministic — two builds from the same
source (same site list) produce byte-identical note sections; emission is a
pure function of the source. -/
theorem build_deterministic (src₁ src₂ : List ProbeSite)
    (h : src₁ = src₂) : buildImage src₁ = buildImage src₂ := by
  rw [h]

/-- C7 witness: two builds of a one-probe source agree byte for byte. -/
theorem build_deterministic_witness :
    buildImage [⟨"foo", "begin", [], 4096, 0⟩] =
      buildImage [⟨"foo", "begin", [], 4096, 0⟩] :=
  build_deterministic [⟨"foo", "begin", [], 4096, 0⟩]
    [⟨"foo", "begin", [], 4096, 0⟩] rfl

/-- Split a character list on single spaces. -/
def splitSpacesAux : List Char → List Char → List (List Char)
  | [], cur => [cur.reverse]
  | c :: rest, cur =>
    if c = ' ' then cur.reverse :: splitSpacesAux rest []
    else splitSpacesAux rest (c :: cur)

/-- Tokens of an argument-format string (empty string has no tokens). -/
def splitSpaces (cs : List Char) : List (List Char) :=
  match cs with
  | [] => []
  | _ => splitSpacesAux cs []

/-- Parse a run of decimal digits into a number; fails on a non-digit. -/
def parseDigits : List Char → Nat → Option Nat
  | [], acc => some acc
  | c :: rest, acc =>
    if 48 ≤ c.toNat ∧ c.toNat ≤ 57 then
      parseDigits rest (acc * 10 + (c.toNat - 48))
    else none

/-- Parse the width field of one argument token: the decimal digits before
the `@` separator. -/
def parseWidth (cs : List Char) : Option Nat :=
  match cs.takeWhile (fun c => c != '@') with
  | [] => none
  | ds => parseDigits ds 0

/-- Decode one argument token of the note format into its byte width and
signedness: a leading `-` marks a signed argument. -/
def parseArg : List Char → Option (Nat × Bool)
  | '-' :: rest => (parseWidth rest).map (fun w => (w, true))
  | cs => (parseWidth cs).map (fun w => (w, false))

/-- A synthetic decoder for the note's argument-format string, recovering
each argument's width and signedness in order. -/
def decodeArgs (s : String) : Option (List (Nat × Bool)) :=
  (splitSpaces s.data).mapM parseArg

/-- C8: round-trip of the note encoding — for a probe with arguments
`(i: isize, total: isize)`, whose descriptors carry the platform pointer
width (4 or 8 bytes) and are signed, the decoder reading the emitted
argument-format string recovers exactly two arguments, both of the pointer
width and both signed. -/
theorem note_arg_roundtrip_isize (w : Nat) (hw : w = 4 ∨ w = 8) :
    decodeArgs (argFormatString
        [⟨0, w, true, "%rdi"⟩, ⟨1, w, true, "%rsi"⟩]) =
      some [(w, true), (w, true)] ∧
    ((decodeArgs (argFormatString
        [⟨0, w, true, "%rdi"⟩, ⟨1, w, true, "%rsi"⟩])).getD []).length = 2 := by
  rcases hw with rfl | rfl <;> exact ⟨by decide, by decide⟩

/-- C8 witness: on a 64-bit platform (pointer width 8) the decoder recovers
count 2, widths 8 and 8, both signed. -/
theorem note_arg_roundtrip_isize_witness :
    decodeArgs (argFormatString
        [⟨0, 8, true, "%rdi"⟩, ⟨1, 8, true, "%rsi"⟩]) =
      some [(8, true), (8, true)] ∧
    ((decodeArgs (argFormatString
        [⟨0, 8, true, "%rdi"⟩, ⟨1, 8, true, "%rsi"⟩])).getD []).length = 2 :=
  note_arg_roundtrip_isize 8 (Or.inr rfl)

/-- A token in the provider/name position of a probe invocation: an
identifier, or anything else. -/
inductive Token
  | ident (s : String)
  | other (s : String)
  deriving DecidableEq, Repr

/-- Whether a token is an identifier, as required by the macro grammar in
`src/lib.rs`. -/
def Token.isIdent : Token → Bool
  | .ident _ => true
  | .other _ => false

/-- Modelled from the spec: an argument expression together with the
compile-time fact of whether it can be cast `as isize` (non-castable
expressions are rejected at compile time by the platform macro). -/
structure ArgSpec (σ : Type) where
  expr : ArgExpr σ
  castable : Bool

/-- A compile-time diagnostic: a non-identifier in the provider/name
position, or the 0-based position of an argument that cannot be cast
`as isize`. -/
inductive CompileError
  | notIdent (text : String)
  | argNotCastable (position : Nat)
  deriving DecidableEq, Repr

/-- A successfully compiled probe call. -/
structure CompiledProbe (σ : Type) where
  provider : String
  name : String
  args : List (ArgExpr σ)

/-- Position of the first non-castable argument, counting from `k`. -/
def firstBad : List (ArgSpec σ) → Nat → Option Nat
  | [], _ => none
  | a :: rest, k => if a.castable then firstBad rest (k + 1) else some k

/-- Modelled from the spec: compiling one probe invocation — reject a
non-identifier provider or name, reject (naming its position) the first
argument that cannot be cast `as isize`, otherwise accept.  The platform
never influences acceptance: an unsupported platform downgrades silently,
it never fails the build. -/
def compileProbe (p : Platform) (provider name : Token)
    (args : List (ArgSpec σ)) : Except CompileError (CompiledProbe σ) :=
  match p, provider with
  | _, .other s => .error (.notIdent s)
  | _, .ident ps =>
    match name with
    | .other s => .error (.notIdent s)
    | .ident ns =>
      match firstBad args 0 with
      | some k => .error (.argNotCastable k)
      | none => .ok ⟨ps, ns, args.map (fun a => a.expr)⟩

/-- `firstBad` returns `none` exactly when every argument is castable. -/
theorem firstBad_eq_none_iff (args : List (ArgSpec σ)) (k : Nat) :
    firstBad args k = none ↔ ∀ a ∈ args, a.castable = true := by
  induction args generalizing k with
  | nil => simp [firstBad]
  | cons a rest ih =>
    by_cases h : a.castable <;> simp [firstBad, h, ih]

/-- `firstBad` reports a position holding a non-castable argument. -/
theorem firstBad_spec (args : List (ArgSpec σ)) (k j : Nat)
    (h : firstBad args k = some j) :
    k ≤ j ∧ ∃ a, args[j - k]? = some a ∧ a.castable = false := by
  induction args generalizing k with
  | nil => simp [firstBad] at h
  | cons a rest ih =>
    by_cases hc : a.castable
    · simp only [firstBad, hc, if_true] at h
      obtain ⟨hk, a', ha', hcast⟩ := ih (k + 1) h
      refine ⟨by omega, a', ?_, hcast⟩
      have hgt : j - k = (j - (k + 1)) + 1 := by omega
      simpa [hgt] using ha'
    · simp only [firstBad, hc, if_false] at h
      cases h
      exact ⟨Nat.le_refl _, a, by simpa using hc⟩

/-- C9: there is no run-time error channel.  Compilation succeeds exactly
when provider and name are identifiers and every argument is castable
`as isize`; a cast rejection names the offending argument position (which
really holds a non-castable argument); the outcome never depends on the
platform (an unsupported platform is a silent downgrade, never a build
failure); and once compiled, execution is infallible — for every state the
eager and lazy forms each produce exactly one outcome. -/
theorem no_runtime_error_channel (p : Platform) (provider name : Token)
    (args : List (ArgSpec σ)) :
    ((∃ cp, compileProbe p provider name args = .ok cp) ↔
      (provider.isIdent = true ∧ name.isIdent = true ∧
        ∀ a ∈ args, a.castable = true)) ∧
    (∀ k, compileProbe p provider name args = .error (.argNotCastable k) →
      ∃ a, args[k]? = some a ∧ a.castable = false) ∧
    compileProbe p provider name args =
      compileProbe .fallback provider name args ∧
    (∀ (cp : CompiledProbe σ) (g : Semaphore) (s : σ),
      compileProbe p provider name args = .ok cp →
        (∃! out, platform_probe p cp.provider cp.name cp.args s = out) ∧
        (∃! out, platform_probe_lazy p g cp.provider cp.name cp.args s = out)) := by
  refine ⟨?_, ?_, ?_, ?_⟩
  · constructor
    · rintro ⟨cp, hcp⟩
      cases provider with
      | other s => simp [compileProbe] at hcp
      | ident ps =>
        cases name with
        | other s => simp [compileProbe] at hcp
        | ident ns =>
          refine ⟨rfl, rfl, ?_⟩
          rcases hfb : firstBad args 0 with _ | k
          · exact (firstBad_eq_none_iff args 0).1 hfb
          · simp [compileProbe, hfb] at hcp
    · rintro ⟨hp, hn, hall⟩
      cases provider with
      | other s => simp [Token.isIdent] at hp
      | ident ps =>
        cases name with
        | other s => simp [Token.isIdent] at hn
        | ident ns =>
          have hfb : firstBad args 0 = none :=
            (firstBad_eq_none_iff args 0).2 hall
          exact ⟨⟨ps, ns, args.map (fun a => a.expr)⟩, by
            simp [compileProbe, hfb]⟩
  · intro k hk
    cases provider with
    | other s => simp [compileProbe] at hk
    | ident ps =>
      cases name with
      | other s => simp [compileProbe] at hk
      | ident ns =>
        rcases hfb : firstBad args 0 with _ | j
        · simp [compileProbe, hfb] at hk
        · simp only [compileProbe, hfb, Except.error.injEq,
            CompileError.argNotCastable.injEq] at hk
          cases hk
          simpa using (firstBad_spec args 0 _ hfb).2
  · cases provider with
    | other s => rfl
    | ident ps =>
      cases name with
      | other s => rfl
      | ident ns => rcases hfb : firstBad args 0 with _ | j <;>
        simp [compileProbe, hfb]
  · intro cp g s _
    exact ⟨⟨_, rfl, fun y hy => hy.symm⟩, ⟨_, rfl, fun y hy => hy.symm⟩⟩

/-- C9 witness: `probe!(foo, bar, \x7b z += 1; z \x7d)` compiles (the
argument casts `as isize`), and the compiled call has exactly one outcome
per input state for both forms. -/
theorem no_runtime_error_channel_witness :
    (∃ cp, compileProbe (σ := Int) .native (.ident "foo") (.ident "bar")
      [⟨incZ, true⟩] = .ok cp) ∧
    compileProbe (σ := Int) .native (.ident "foo") (.ident "bar")
      [⟨incZ, true⟩] =
      compileProbe .fallback (.ident "foo") (.ident "bar") [⟨incZ, true⟩] := by
  have h := no_runtime_error_channel (σ := Int) .native (.ident "foo")
    (.ident "bar") [⟨incZ, true⟩]
  exact ⟨h.1.mpr ⟨rfl, rfl, by simp⟩, h.2.2.1⟩

/-- A token of a probe invocation's argument list, as seen by the macro
matcher in `src/lib.rs`: an identifier, a comma, or an argument expression
(identified abstractly by a number). -/
inductive Tok
  | ident (s : String)
  | comma
  | argExpr (e : Nat)
  deriving DecidableEq, Repr

/-- The argument-tail matcher of both macros in `src/lib.rs`: zero or more
comma-prefixed expressions followed by an optional trailing comma. -/
def matchArgs : List Tok → Option (List Nat)
  | [] => some []
  | [Tok.comma] => some []
  | Tok.comma :: Tok.argExpr e :: rest =>
    (matchArgs rest).map (fun as => e :: as)
  | _ => none

/-- The invocation matcher of both macros in `src/lib.rs`: a provider
identifier, a comma, a name identifier, then the argument tail. -/
def matchInvocation : List Tok → Option (String × String × List Nat)
  | Tok.ident p :: Tok.comma :: Tok.ident n :: rest =>
    (matchArgs rest).map (fun as => (p, n, as))
  | _ => none

/-- The expansion target: a call of the platform-selected implementation
with the forwarded provider, name and arguments. -/
inductive PlatformCall
  | toProbe (provider name : String) (args : List Nat)
  | toProbeLazy (provider name : String) (args : List Nat)
  deriving DecidableEq, Repr

/-- Expansion of `probe!` per `src/lib.rs`: match the invocation and
forward provider, name and arguments unchanged to `platform_probe!`. -/
def probeExpand (ts : List Tok) : Option PlatformCall :=
  (matchInvocation ts).map (fun r => .toProbe r.1 r.2.1 r.2.2)

/-- Expansion of `probe_lazy!` per `src/lib.rs`: match the invocation and
forward provider, name and arguments unchanged to `platform_probe_lazy!`. -/
def probeLazyExpand (ts : List Tok) : Option PlatformCall :=
  (matchInvocation ts).map (fun r => .toProbeLazy r.1 r.2.1 r.2.2)

/-- The comma-prefixed argument tokens of an invocation. -/
def argTokens : List Nat → List Tok
  | [] => []
  | e :: rest => Tok.comma :: Tok.argExpr e :: argTokens rest

/-- The token stream of an invocation `provider, name, e1, ..., ek` with an
optional trailing comma. -/
def invocationTokens (p n : String) (args : List Nat) (trailing : Bool) :
    List Tok :=
  Tok.ident p :: Tok.comma :: Tok.ident n ::
    (argTokens args ++ (if trailing then [Tok.comma] else []))

/-- The argument-tail matcher accepts any number of arguments, with or
without a trailing comma, and recovers them in order. -/
theorem matchArgs_invocation (args : List Nat) (trailing : Bool) :
    matchArgs (argTokens args ++ (if trailing then [Tok.comma] else [])) =
      some args := by
  induction args with
  | nil => cases trailing <;> simp [argTokens, matchArgs]
  | cons e rest ih => simp [argTokens, matchArgs, ih]

/-- C10: both `probe!` and `probe_lazy!` accept invocations with zero
arguments and an optional trailing comma, and always forward the provider,
the name and the arguments unchanged and in order to the platform-selected
implementation. -/
theorem macros_forward_unchanged (p n : String) (args : List Nat)
    (trailing : Bool) :
    probeExpand (invocationTokens p n args trailing) =
      some (.toProbe p n args) ∧
    probeLazyExpand (invocationTokens p n args trailing) =
      some (.toProbeLazy p n args) := by
  constructor <;>
    simp [probeExpand, probeLazyExpand, matchInvocation, invocationTokens,
      matchArgs_invocation]

end Probe
